import Mathlib

/-!
Verification development for the PrimeProp multi-provider ingestion and
edge-ranking pipeline.

Python numeric values (floats used for thresholds, odds, projections and
edges) are modelled as exact rationals (`ℚ`); Python `Optional` values are
modelled as `Option`; a Python function that may raise is modelled as
returning `Except` (the raised message) or `Option`.  Python `dict`s are
modelled as insertion-ordered association lists, matching CPython's
guaranteed insertion-order iteration.  Definitions follow `src/models.py`,
`src/optimizer.py`, `src/projection.py` and `src/ingest.py`.
-/

/-- Canonical stat categories (`src/projection.py` STAT_TYPES, also the
`Literal` type of `PropLine.stat_type` in `src/models.py`). -/
inductive StatType where
  | Points | Rebounds | Assists | PRA | Threes
deriving DecidableEq, Repr

/-- Recommended betting side (`Literal['Over','Under','Pass']` in
`src/optimizer.py`). -/
inductive Side where
  | Over | Under | Pass
deriving DecidableEq, Repr

/-- `Player` model from `src/models.py`. -/
structure Player where
  id : String
  standardized_name : String
  team : String
  aliases : List String
deriving DecidableEq, Repr

/-- `PropLine` model from `src/models.py`.  The pydantic validator enforces
`threshold > 0`; construction goes through `mkPropLine` below which models
the validator raising on non-positive thresholds. -/
structure PropLine where
  player_id : String
  provider : String
  stat_type : StatType
  threshold : ℚ
  over_odds : Option ℚ
  under_odds : Option ℚ
deriving DecidableEq, Repr

/-- Models `PropLine(...)` construction: pydantic raises `ValueError` when
`threshold <= 0` (the `validate_threshold` validator in `src/models.py`);
callers in `src/ingest.py` catch that and skip the record, so we model the
constructor as returning `none` in that case. -/
def mkPropLine (player_id provider : String) (stat_type : StatType)
    (threshold : ℚ) (over_odds under_odds : Option ℚ) : Option PropLine :=
  if threshold ≤ 0 then none
  else some ⟨player_id, provider, stat_type, threshold, over_odds, under_odds⟩

/-- `MarketSnapshot` from `src/models.py`.  The `timestamp` field (defaulted
to `datetime.utcnow()`) is environment-dependent and carries no logic, so it
is not modelled. -/
structure MarketSnapshot where
  snapshot_id : String
  game_id : String
  lines : List PropLine
deriving DecidableEq, Repr

/-- `PropEdge` model from `src/optimizer.py`. -/
structure PropEdge where
  player_id : String
  stat_type : StatType
  provider : String
  market_line : ℚ
  projected : ℚ
  edge : ℚ
  recommended_side : Side
deriving DecidableEq, Repr

/-- `calculate_implied_probability` from `src/optimizer.py`: converts
American odds to an implied probability; `None` input yields `None`. -/
def calculate_implied_probability (odds : Option ℚ) : Option ℚ :=
  match odds with
  | none => none
  | some o => if o > 0 then some (100 / (o + 100)) else some (|o| / (|o| + 100))

/-- `compute_edge` from `src/optimizer.py`: raises `ValueError` (modelled as
`Except.error`) when `market_line <= 0`, otherwise returns
`(projected - market_line) / market_line`. -/
def compute_edge (projected market_line : ℚ) : Except String ℚ :=
  if market_line ≤ 0 then Except.error "market_line must be > 0 to compute edge."
  else Except.ok ((projected - market_line) / market_line)

/-- The side-classification rule inside `rank_props_by_edge`
(`src/optimizer.py`, lines 87-92). -/
def classify_side (edge : ℚ) : Side :=
  if edge > 5/100 then Side.Over
  else if edge < -(5/100) then Side.Under
  else Side.Pass

/-- One iteration of the loop body of `rank_props_by_edge`: produces the
`PropEdge` for a line, or `none` when the projection is absent or
`compute_edge` raised (both `continue` in the source). -/
def buildPropEdge (get_projection : String → StatType → Option ℚ)
    (line : PropLine) : Option PropEdge :=
  match get_projection line.player_id line.stat_type with
  | none => none
  | some projected =>
    match compute_edge projected line.threshold with
    | Except.error _ => none
    | Except.ok edge_value =>
      some ⟨line.player_id, line.stat_type, line.provider, line.threshold,
            projected, edge_value, classify_side edge_value⟩

/-- The list `ranked` as built by the loop in `rank_props_by_edge`, before
the final sort: one entry per line that survived, in input order. -/
def processLines (get_projection : String → StatType → Option ℚ)
    (lines : List PropLine) : List PropEdge :=
  lines.filterMap (buildPropEdge get_projection)

/-- Stable descending insertion by `edge`: the new element is placed before
the first existing element whose edge is not strictly greater.  This is the
specification of CPython's stable `list.sort(key=..., reverse=True)` used at
the end of `rank_props_by_edge`. -/
def insertDesc (x : PropEdge) : List PropEdge → List PropEdge
  | [] => [x]
  | y :: ys => if x.edge < y.edge then y :: insertDesc x ys else x :: y :: ys

/-- Stable sort, descending by `edge` (models `ranked.sort(key=lambda item:
item.edge, reverse=True)` in `src/optimizer.py`). -/
def sortByEdgeDesc : List PropEdge → List PropEdge
  | [] => []
  | x :: xs => insertDesc x (sortByEdgeDesc xs)

/-- `rank_props_by_edge` from `src/optimizer.py`. -/
def rank_props_by_edge (snapshot : MarketSnapshot)
    (get_projection : String → StatType → Option ℚ) : List PropEdge :=
  sortByEdgeDesc (processLines get_projection snapshot.lines)

/-- `_linear_weights` from `src/projection.py`: ascending linear weights
`i / (n(n+1)/2)` for `i = 1..n`. -/
def linear_weights (n : ℕ) : List ℚ :=
  if n = 0 then []
  else (List.range n).map (fun i => ((i : ℚ) + 1) / ((n : ℚ) * ((n : ℚ) + 1) / 2))

/-- `compute_weighted_average` from `src/projection.py`:
`sum(v * w for v, w in zip(values, weights))`, `0.0` on empty input. -/
def compute_weighted_average (values : List ℚ) : ℚ :=
  if values = [] then 0
  else (List.zipWith (· * ·) values (linear_weights values.length)).sum

/-- `compute_simple_average` from `src/projection.py`. -/
def compute_simple_average (values : List ℚ) : ℚ :=
  if values = [] then 0
  else values.sum / (values.length : ℚ)

/-- `fetch_multi_source_snapshot` from `src/ingest.py`, modelled at the point
after `asyncio.gather(..., return_exceptions=True)` has completed: `results`
holds, in provider order, either the provider's normalized lines or the
exception it raised.  The loop skips exceptions and concatenates the rest. -/
def fetch_multi_source_snapshot (snapshot_id game_id : String)
    (results : List (Except String (List PropLine))) : MarketSnapshot :=
  { snapshot_id := snapshot_id
    game_id := game_id
    lines := results.foldl
      (fun acc r => match r with
        | Except.error _ => acc
        | Except.ok ls => acc ++ ls) [] }

/-! ## Insertion-ordered dictionaries

CPython dicts preserve insertion order; overwriting a key keeps its
position.  These association-list operations model the dict operations used
in `src/ingest.py`. -/

/-- Dict lookup (`d.get(k)` / `d[k]`). -/
def dictGet {κ α : Type} [DecidableEq κ] (k : κ) : List (κ × α) → Option α
  | [] => none
  | (k', v) :: rest => if k' = k then some v else dictGet k rest

/-- Dict assignment `d[k] = v`: overwrite in place, or append a new entry. -/
def dictInsert {κ α : Type} [DecidableEq κ] (k : κ) (v : α) :
    List (κ × α) → List (κ × α)
  | [] => [(k, v)]
  | (k', v') :: rest =>
    if k' = k then (k', v) :: rest else (k', v') :: dictInsert k v rest

/-- Models `info = d.setdefault(k, default)` followed by mutating `info` with
`f`: if `k` is present its value is updated in place, otherwise
`(k, f default)` is appended. -/
def dictUpdate {κ α : Type} [DecidableEq κ] (k : κ) (default : α) (f : α → α) :
    List (κ × α) → List (κ × α)
  | [] => [(k, f default)]
  | (k', v) :: rest =>
    if k' = k then (k', f v) :: rest else (k', v) :: dictUpdate k default f rest

/-! ## The Odds API normalizer (`OddsApiIngestor._parse_payload`) -/

/-- One outcome row of a market in a The Odds API payload.  `point` models
`float(outcome.get("point"))`: a missing or non-coercible value is `none`
(the source skips the outcome in either case). -/
structure Outcome where
  description : Option String
  player : Option String
  point : Option ℚ
  price : Option ℚ
  name : Option String
deriving DecidableEq, Repr

structure Market where
  key : Option String
  outcomes : List Outcome
deriving DecidableEq, Repr

structure Bookmaker where
  title : Option String
  markets : List Market
deriving DecidableEq, Repr

structure Event where
  bookmakers : List Bookmaker
deriving DecidableEq, Repr

/-- The payload shapes `_parse_payload` dispatches on: a top-level list, a
single-game dict containing a `"bookmakers"` key, any other dict (read via
`.get("data", [])`), and anything else. -/
inductive OddsPayload where
  | list (events : List Event)
  | single (e : Event)
  | wrapper (data : Option (List Event))
  | other
deriving Repr

/-- The event list each payload shape contributes. -/
def payloadEvents : OddsPayload → List Event
  | OddsPayload.list es => es
  | OddsPayload.single e => [e]
  | OddsPayload.wrapper data => data.getD []
  | OddsPayload.other => []

/-- `STAT_TYPE_KEY_MAP` from `src/ingest.py`. -/
def STAT_TYPE_KEY_MAP (k : String) : Option StatType :=
  if k = "player_points" then some StatType.Points
  else if k = "player_rebounds" then some StatType.Rebounds
  else if k = "player_assists" then some StatType.Assists
  else if k = "player_points_rebounds_assists" then some StatType.PRA
  else if k = "player_threes" then some StatType.Threes
  else none

/-- Python `str.lower()` (as `String.toLower`, written over the character
list so that it evaluates on literals). -/
def strToLower (s : String) : String := ⟨s.data.map Char.toLower⟩

/-- Python truthiness fallback `a or b` for optional strings (`None` and
`""` are falsy). -/
def orElseTruthy (a b : Option String) : Option String :=
  match a with
  | some s => if s = "" then b else some s
  | none => b

/-- `outcome.get("description") or outcome.get("player")` followed by the
`if not player_name: continue` guard: yields `none` exactly when the source
skips the outcome. -/
def playerNameOf (o : Outcome) : Option String :=
  match orElseTruthy o.description o.player with
  | some s => if s = "" then none else some s
  | none => none

/-- `str(outcome.get("name") or "").lower()`. -/
def outcomeNameOf (o : Outcome) : String :=
  match o.name with
  | some s => strToLower s
  | none => ""

/-- Per-group odds record, the dict
`{"over_odds": None, "under_odds": None}` used while grouping. -/
structure OddsInfo where
  over_odds : Option ℚ
  under_odds : Option ℚ
deriving DecidableEq, Repr

/-- The grouping loop over a market's outcomes (`src/ingest.py` lines
163-185): builds `grouped`, keyed by `(player_name, threshold)`, in first-
encounter order. -/
def parse_outcomes (outcomes : List Outcome) :
    List ((String × ℚ) × OddsInfo) :=
  outcomes.foldl
    (fun grouped o =>
      match playerNameOf o with
      | none => grouped
      | some nm =>
        match o.point with
        | none => grouped
        | some t =>
          dictUpdate (nm, t) ⟨none, none⟩
            (fun info =>
              if outcomeNameOf o = "over" then { info with over_odds := o.price }
              else if outcomeNameOf o = "under" then { info with under_odds := o.price }
              else info)
            grouped)
    []

/-- The emission loop over `grouped.items()` (`src/ingest.py` lines
187-204): resolves each group's name through the matcher (abstract state `σ`
with step function `resolve`), skips groups whose resolution yields no id,
and skips groups whose `PropLine` construction raises. -/
def emit_lines {σ : Type} (resolve : σ → String → Option String × σ)
    (provider_label : String) (stat : StatType) :
    List ((String × ℚ) × OddsInfo) → σ → List PropLine × σ
  | [], st => ([], st)
  | ((nm, t), info) :: rest, st =>
    let r := resolve st nm
    match r.1 with
    | none => emit_lines resolve provider_label stat rest r.2
    | some pid =>
      match mkPropLine pid provider_label stat t info.over_odds info.under_odds with
      | none => emit_lines resolve provider_label stat rest r.2
      | some line =>
        let tail := emit_lines resolve provider_label stat rest r.2
        (line :: tail.1, tail.2)

/-- One market: unknown stat keys are dropped, otherwise group and emit. -/
def parse_market {σ : Type} (resolve : σ → String → Option String × σ)
    (provider_label : String) (m : Market) (st : σ) : List PropLine × σ :=
  match m.key.bind STAT_TYPE_KEY_MAP with
  | none => ([], st)
  | some stat => emit_lines resolve provider_label stat (parse_outcomes m.outcomes) st

def parse_markets {σ : Type} (resolve : σ → String → Option String × σ)
    (provider_label : String) : List Market → σ → List PropLine × σ
  | [], st => ([], st)
  | m :: ms, st =>
    let head := parse_market resolve provider_label m st
    let tail := parse_markets resolve provider_label ms head.2
    (head.1 ++ tail.1, tail.2)

/-- `bookmaker.get("title") or self.provider_name` (provider_name is
`"The Odds API"` for this ingestor). -/
def bookmakerLabel (b : Bookmaker) : String :=
  match orElseTruthy b.title (some "The Odds API") with
  | some s => s
  | none => "The Odds API"

def parse_bookmakers {σ : Type} (resolve : σ → String → Option String × σ) :
    List Bookmaker → σ → List PropLine × σ
  | [], st => ([], st)
  | b :: bs, st =>
    let head := parse_markets resolve (bookmakerLabel b) b.markets st
    let tail := parse_bookmakers resolve bs head.2
    (head.1 ++ tail.1, tail.2)

def parse_events {σ : Type} (resolve : σ → String → Option String × σ) :
    List Event → σ → List PropLine × σ
  | [], st => ([], st)
  | e :: es, st =>
    let head := parse_bookmakers resolve e.bookmakers st
    let tail := parse_events resolve es head.2
    (head.1 ++ tail.1, tail.2)

/-- `OddsApiIngestor._parse_payload` from `src/ingest.py`, parametric in the
matcher (`resolve` models `matcher.match_player_id`, threading the matcher's
mutable state `σ`). -/
def oddsApi_parse_payload {σ : Type} (resolve : σ → String → Option String × σ)
    (payload : OddsPayload) (st : σ) : List PropLine × σ :=
  parse_events resolve (payloadEvents payload) st

/-! ## PrizePicks normalizer (`PrizePicksIngestor._parse_payload`) -/

/-- The `attributes` dict of one PrizePicks item; `line_score` models
`float(attributes.get("line_score"))`, `none` when missing or
non-coercible (both skipped by the source). -/
structure PPAttributes where
  display_name : Option String
  name : Option String
  stat_type : Option String
  stat : Option String
  line_score : Option ℚ
deriving DecidableEq, Repr

/-- One item of a PrizePicks payload (`item.get("attributes", {})` defaults
to the all-`none` record). -/
structure PPItem where
  attributes : PPAttributes
deriving DecidableEq, Repr

/-- `STAT_TYPE_NAME_MAP` from `src/ingest.py` (looked up on the lowercased
stat label). -/
def STAT_TYPE_NAME_MAP (k : String) : Option StatType :=
  if k = "points" then some StatType.Points
  else if k = "rebounds" then some StatType.Rebounds
  else if k = "assists" then some StatType.Assists
  else if k = "points_rebounds_assists" then some StatType.PRA
  else if k = "pra" then some StatType.PRA
  else if k = "threes" then some StatType.Threes
  else if k = "three_pointers_made" then some StatType.Threes
  else none

/-- The pure prefix of the PrizePicks per-item loop: name, stat and
threshold extraction with all their skip guards, before the matcher is
consulted.  Returns `none` exactly when the source `continue`s before
calling `matcher.match_player_id`. -/
def ppRecord (item : PPItem) : Option (String × StatType × ℚ) :=
  let a := item.attributes
  match orElseTruthy a.display_name a.name with
  | none => none
  | some nm =>
    if nm = "" then none
    else
      match orElseTruthy a.stat_type a.stat with
      | none => none
      | some stat_raw =>
        if stat_raw = "" then none
        else
          match STAT_TYPE_NAME_MAP (strToLower stat_raw) with
          | none => none
          | some stat =>
            match a.line_score with
            | none => none
            | some t => some (nm, stat, t)

/-- `PrizePicksIngestor._parse_payload` from `src/ingest.py`, over the item
list (the `{"data": [...]}` unwrap is payload-shape dispatch as in the Odds
API parser), parametric in the matcher. -/
def prizePicks_parse_items {σ : Type} (resolve : σ → String → Option String × σ) :
    List PPItem → σ → List PropLine × σ
  | [], st => ([], st)
  | item :: rest, st =>
    match ppRecord item with
    | none => prizePicks_parse_items resolve rest st
    | some (nm, stat, t) =>
      let r := resolve st nm
      match r.1 with
      | none => prizePicks_parse_items resolve rest r.2
      | some pid =>
        match mkPropLine pid "PrizePicks" stat t none none with
        | none => prizePicks_parse_items resolve rest r.2
        | some line =>
          let tail := prizePicks_parse_items resolve rest r.2
          (line :: tail.1, tail.2)

/-! ## Fuzzy identity resolver (`FuzzyNameMatcher`)

The similarity scorer itself lives in the external `thefuzz` library, not in
this repository; it is taken as a parameter `score : String → String → ℕ`.
Modelled from the spec: "approximate string matching ... using a similarity
score in a bounded range (0-100); accept the single highest-scoring
candidate if its score is ≥ a configurable cutoff". -/

/-- Mutable state of one `FuzzyNameMatcher` instance. -/
structure MatcherState where
  score_cutoff : ℕ
  name_to_player_id : List (String × String)
  players_by_id : List (String × Player)
  choices : List String
deriving DecidableEq, Repr

/-- `FuzzyNameMatcher.__init__` from `src/ingest.py`. -/
def FuzzyNameMatcher_init (players : List Player) (score_cutoff : ℕ) :
    MatcherState :=
  let maps := players.foldl
    (fun acc p =>
      let pbid := dictInsert p.id p acc.1
      let ntp0 := dictInsert p.standardized_name p.id acc.2
      let ntp := p.aliases.foldl (fun a al => dictInsert al p.id a) ntp0
      (pbid, ntp))
    (([] : List (String × Player)), ([] : List (String × String)))
  { score_cutoff := score_cutoff
    name_to_player_id := maps.2
    players_by_id := maps.1
    choices := maps.2.map Prod.fst }

/-- The `while f"{base} ({suffix})" in self._players_by_id` loop of
`_create_player_from_name`, with explicit fuel (the loop terminates because
`players_by_id` is finite; `players_by_id.length + 1` suffices). -/
def freshIdLoop (base : String) (used : List (String × Player)) :
    ℕ → ℕ → String
  | 0, suffix => base ++ " (" ++ toString suffix ++ ")"
  | fuel + 1, suffix =>
    let cand := base ++ " (" ++ toString suffix ++ ")"
    if (dictGet cand used).isSome then freshIdLoop base used fuel (suffix + 1)
    else cand

/-- `FuzzyNameMatcher._create_player_from_name` from `src/ingest.py`. -/
def create_player_from_name (st : MatcherState) (name : String) :
    Player × MatcherState :=
  let player_id :=
    if (dictGet name st.players_by_id).isSome then
      freshIdLoop name st.players_by_id (st.players_by_id.length + 1) 2
    else name
  let player : Player := ⟨player_id, name, "UNK", []⟩
  let pbid := dictInsert player.id player st.players_by_id
  let ntp := dictInsert name player.id st.name_to_player_id
  (player,
    { st with
      players_by_id := pbid
      name_to_player_id := ntp
      choices := ntp.map Prod.fst })

/-- One step of the `thefuzz.process.extractOne` scan: a choice whose score
reaches the cutoff replaces the best candidate so far only when it scores
strictly higher (first-wins on ties, as Python's `max` keeps the earliest
maximal element). -/
def extractOneStep (score : String → String → ℕ) (query : String)
    (cutoff : ℕ) (best : Option (String × ℕ)) (c : String) :
    Option (String × ℕ) :=
  if cutoff ≤ score query c then
    match best with
    | none => some (c, score query c)
    | some (b, bs) =>
      if bs < score query c then some (c, score query c) else some (b, bs)
  else best

/-- The scan loop of `thefuzz.process.extractOne` over the choices. -/
def extractOneAux (score : String → String → ℕ) (query : String)
    (cutoff : ℕ) : Option (String × ℕ) → List String → Option (String × ℕ)
  | best, [] => best
  | best, c :: cs =>
    extractOneAux score query cutoff (extractOneStep score query cutoff best c) cs

/-- Modelled from the spec: `thefuzz.process.extractOne(query, choices,
score_cutoff)` — the external library routine scores every choice with a
similarity score in 0-100, keeps the first highest-scoring one, and returns
it only when its score reaches the cutoff (`None` otherwise). -/
def extractOne (score : String → String → ℕ) (query : String)
    (choices : List String) (cutoff : ℕ) : Option (String × ℕ) :=
  extractOneAux score query cutoff none choices

/-- `FuzzyNameMatcher.match_player_id` from `src/ingest.py`, parametric in
the external scorer. -/
def match_player_id (score : String → String → ℕ) (st : MatcherState)
    (name : String) : Option String × MatcherState :=
  if name = "" then (none, st)
  else if st.choices = [] then
    let p := create_player_from_name st name
    (some p.1.id, p.2)
  else
    match extractOne score name st.choices st.score_cutoff with
    | none =>
      let p := create_player_from_name st name
      (some p.1.id, p.2)
    | some m => (dictGet m.1 st.name_to_player_id, st)

/-- Invariant of the `extractOne` scan: the best candidate so far scores at
most 100, and only the query itself can be carried with a score of 100. -/
def goodBest (_score : String → String → ℕ) (query : String) :
    Option (String × ℕ) → Prop
  | none => True
  | some (b, bs) => bs ≤ 100 ∧ (bs = 100 → b = query)

/-- An instrumented matcher for counting resolver invocations: resolution
itself is the pure `table`, and the state accumulates the list of raw names
the parser passed to the resolver, in call order. -/
def resolveLog (table : String → Option String) (log : List String)
    (n : String) : Option String × List String :=
  (table n, log ++ [n])

/-- The raw names a market hands to the resolver: one per
`(player_name, threshold)` group (none when the stat key is unknown). -/
def marketGroupNames (m : Market) : List String :=
  match m.key.bind STAT_TYPE_KEY_MAP with
  | none => []
  | some _ => (parse_outcomes m.outcomes).map (fun g => g.1.1)

def bookmakerGroupNames (b : Bookmaker) : List String :=
  (b.markets.map marketGroupNames).flatten

def eventGroupNames (e : Event) : List String :=
  (e.bookmakers.map bookmakerGroupNames).flatten

/-- All raw names an Odds API payload hands to the resolver, in order. -/
def payloadGroupNames (p : OddsPayload) : List String :=
  ((payloadEvents p).map eventGroupNames).flatten

/-- The raw names a PrizePicks item list hands to the resolver: one per item
that passes the name/stat/threshold guards. -/
def ppRecordNames (items : List PPItem) : List String :=
  items.filterMap (fun item => (ppRecord item).map (fun r => r.1))

/-! ## Supporting lemmas -/

theorem mem_insertDesc {x y : PropEdge} {l : List PropEdge} :
    y ∈ insertDesc x l ↔ y = x ∨ y ∈ l := by
  induction l with
  | nil => simp [insertDesc]
  | cons z zs ih =>
    by_cases h : x.edge < z.edge
    · simp only [insertDesc, if_pos h, List.mem_cons, ih]
      tauto
    · simp only [insertDesc, if_neg h, List.mem_cons]

theorem mem_sortByEdgeDesc {y : PropEdge} {l : List PropEdge} :
    y ∈ sortByEdgeDesc l ↔ y ∈ l := by
  induction l with
  | nil => simp [sortByEdgeDesc]
  | cons z zs ih => simp [sortByEdgeDesc, mem_insertDesc, ih]

theorem buildPropEdge_recommended_side
    {proj : String → StatType → Option ℚ} {line : PropLine} {p : PropEdge}
    (h : buildPropEdge proj line = some p) :
    p.recommended_side = classify_side p.edge := by
  unfold buildPropEdge at h
  cases hp : proj line.player_id line.stat_type with
  | none => rw [hp] at h; exact absurd h (by simp)
  | some projected =>
    rw [hp] at h
    dsimp only at h
    cases he : compute_edge projected line.threshold with
    | error e => rw [he] at h; exact absurd h (by simp)
    | ok ev =>
      rw [he] at h
      dsimp only at h
      cases h
      rfl

theorem pairwise_insertDesc {x : PropEdge} {l : List PropEdge}
    (h : List.Pairwise (fun a b => b.edge ≤ a.edge) l) :
    List.Pairwise (fun a b => b.edge ≤ a.edge) (insertDesc x l) := by
  induction l with
  | nil => simp [insertDesc]
  | cons z zs ih =>
    rw [List.pairwise_cons] at h
    by_cases hx : x.edge < z.edge
    · rw [insertDesc, if_pos hx, List.pairwise_cons]
      refine ⟨?_, ih h.2⟩
      intro y hy
      rcases mem_insertDesc.mp hy with rfl | hy'
      · exact le_of_lt hx
      · exact h.1 y hy'
    · rw [insertDesc, if_neg hx, List.pairwise_cons]
      refine ⟨?_, List.pairwise_cons.mpr h⟩
      intro y hy
      rcases List.mem_cons.mp hy with rfl | hy'
      · exact not_lt.mp hx
      · exact le_trans (h.1 y hy') (not_lt.mp hx)

theorem pairwise_sortByEdgeDesc (l : List PropEdge) :
    List.Pairwise (fun a b => b.edge ≤ a.edge) (sortByEdgeDesc l) := by
  induction l with
  | nil => simp [sortByEdgeDesc]
  | cons x xs ih => exact pairwise_insertDesc ih

theorem filter_insertDesc_eq {x : PropEdge} {e : ℚ} (hx : x.edge = e)
    (l : List PropEdge) :
    (insertDesc x l).filter (fun p => decide (p.edge = e))
      = x :: l.filter (fun p => decide (p.edge = e)) := by
  induction l with
  | nil => simp [insertDesc, hx]
  | cons y ys ih =>
    by_cases hlt : x.edge < y.edge
    · have hy : ¬ y.edge = e := by
        intro he
        rw [hx, ← he] at hlt
        exact lt_irrefl _ hlt
      rw [insertDesc, if_pos hlt, List.filter_cons, List.filter_cons]
      simp only [hy, decide_eq_false]
      exact ih
    · rw [insertDesc, if_neg hlt, List.filter_cons]
      simp [hx]

theorem filter_insertDesc_ne {x : PropEdge} {e : ℚ} (hx : ¬ x.edge = e)
    (l : List PropEdge) :
    (insertDesc x l).filter (fun p => decide (p.edge = e))
      = l.filter (fun p => decide (p.edge = e)) := by
  induction l with
  | nil => simp [insertDesc, hx]
  | cons y ys ih =>
    by_cases hlt : x.edge < y.edge
    · rw [insertDesc, if_pos hlt, List.filter_cons, List.filter_cons]
      rw [ih]
    · rw [insertDesc, if_neg hlt, List.filter_cons]
      simp [hx]

theorem filter_sortByEdgeDesc (e : ℚ) (l : List PropEdge) :
    (sortByEdgeDesc l).filter (fun p => decide (p.edge = e))
      = l.filter (fun p => decide (p.edge = e)) := by
  induction l with
  | nil => rfl
  | cons x xs ih =>
    by_cases hx : x.edge = e
    · rw [sortByEdgeDesc, filter_insertDesc_eq hx, ih, List.filter_cons]
      simp [hx]
    · rw [sortByEdgeDesc, filter_insertDesc_ne hx, ih, List.filter_cons]
      simp [hx]

theorem dictGet_dictInsert_self {κ α : Type} [DecidableEq κ] (k : κ) (v : α)
    (l : List (κ × α)) : dictGet k (dictInsert k v l) = some v := by
  induction l with
  | nil => simp [dictInsert, dictGet]
  | cons p rest ih =>
    obtain ⟨k', v'⟩ := p
    by_cases h : k' = k
    · simp [dictInsert, dictGet, h]
    · simp [dictInsert, dictGet, h, ih]

theorem dictGet_eq_none_iff {κ α : Type} [DecidableEq κ] (k : κ)
    (l : List (κ × α)) : dictGet k l = none ↔ k ∉ l.map Prod.fst := by
  induction l with
  | nil => simp [dictGet]
  | cons p rest ih =>
    obtain ⟨k', v'⟩ := p
    by_cases h : k' = k
    · simp [dictGet, h]
    · simp [dictGet, h, ih, Ne.symm h]

theorem dictGet_isSome_iff {κ α : Type} [DecidableEq κ] (k : κ)
    (l : List (κ × α)) : (dictGet k l).isSome ↔ k ∈ l.map Prod.fst := by
  rw [← not_iff_not, not_iff_comm, ← dictGet_eq_none_iff k l]
  cases dictGet k l <;> simp

theorem dictInsert_keys_of_none {κ α : Type} [DecidableEq κ] {k : κ}
    {l : List (κ × α)} (h : dictGet k l = none) (v : α) :
    (dictInsert k v l).map Prod.fst = l.map Prod.fst ++ [k] := by
  induction l with
  | nil => simp [dictInsert]
  | cons p rest ih =>
    obtain ⟨k', v'⟩ := p
    rw [dictGet] at h
    by_cases hk : k' = k
    · rw [if_pos hk] at h
      exact absurd h (by simp)
    · rw [if_neg hk] at h
      simp [dictInsert, hk, ih h]

theorem extractOneAux_below {score : String → String → ℕ} {query : String}
    {cutoff : ℕ} :
    ∀ (l : List String) (best : Option (String × ℕ)),
      (∀ c ∈ l, score query c < cutoff) →
      extractOneAux score query cutoff best l = best := by
  intro l
  induction l with
  | nil => intro best _; rfl
  | cons c cs ih =>
    intro best h
    rw [extractOneAux]
    have hc : ¬ cutoff ≤ score query c := not_le.mpr (h c (by simp))
    rw [extractOneStep.eq_def, if_neg hc]
    exact ih best (fun d hd => h d (by simp [hd]))

theorem extractOneAux_keep100 {score : String → String → ℕ} {query b : String}
    {cutoff : ℕ} (Hle : ∀ c, score query c ≤ 100) :
    ∀ l : List String,
      extractOneAux score query cutoff (some (b, 100)) l = some (b, 100) := by
  intro l
  induction l with
  | nil => rfl
  | cons c cs ih =>
    rw [extractOneAux]
    have hns : ¬ 100 < score query c := not_lt.mpr (Hle c)
    by_cases hc : cutoff ≤ score query c
    · rw [extractOneStep.eq_def, if_pos hc]
      simp only [if_neg hns]
      exact ih
    · rw [extractOneStep.eq_def, if_neg hc]
      exact ih

theorem extractOneStep_good {score : String → String → ℕ} {query c : String}
    {cutoff : ℕ} {best : Option (String × ℕ)}
    (Hle : ∀ d, score query d ≤ 100)
    (Heq : ∀ d, score query d = 100 → d = query)
    (hgood : goodBest score query best) :
    goodBest score query (extractOneStep score query cutoff best c) := by
  rw [extractOneStep.eq_def]
  by_cases hcs : cutoff ≤ score query c
  · rw [if_pos hcs]
    cases best with
    | none => exact ⟨Hle c, fun h100 => Heq c h100⟩
    | some p =>
      obtain ⟨b, bs⟩ := p
      by_cases hlt : bs < score query c
      · simp only [if_pos hlt]
        exact ⟨Hle c, fun h100 => Heq c h100⟩
      · simp only [if_neg hlt]
        exact hgood
  · rw [if_neg hcs]
    exact hgood

theorem extractOneStep_query {score : String → String → ℕ} {query : String}
    {cutoff : ℕ} {best : Option (String × ℕ)}
    (Hq : score query query = 100) (hcut : cutoff ≤ 100)
    (hgood : goodBest score query best) :
    extractOneStep score query cutoff best query = some (query, 100) := by
  rw [extractOneStep.eq_def, Hq, if_pos hcut]
  cases best with
  | none => rfl
  | some p =>
    obtain ⟨b, bs⟩ := p
    obtain ⟨hbs, hb100⟩ := hgood
    dsimp only
    by_cases hlt : bs < 100
    · rw [if_pos hlt]
    · rw [if_neg hlt]
      have hbs100 : bs = 100 := le_antisymm hbs (not_lt.mp hlt)
      rw [hb100 hbs100, hbs100]

theorem extractOneAux_query {score : String → String → ℕ} {query : String}
    {cutoff : ℕ} (Hle : ∀ c, score query c ≤ 100)
    (Heq : ∀ c, score query c = 100 → c = query)
    (Hq : score query query = 100) (hcut : cutoff ≤ 100) :
    ∀ (l : List String) (best : Option (String × ℕ)),
      goodBest score query best → query ∈ l →
      extractOneAux score query cutoff best l = some (query, 100) := by
  intro l
  induction l with
  | nil => intro best _ hmem; exact absurd hmem (by simp)
  | cons c cs ih =>
    intro best hgood hmem
    rw [extractOneAux]
    by_cases hc : c = query
    · rw [hc, extractOneStep_query Hq hcut hgood]
      exact extractOneAux_keep100 Hle cs
    · have hmem' : query ∈ cs := by
        rcases List.mem_cons.mp hmem with h | h
        · exact absurd h.symm hc
        · exact h
      exact ih _ (extractOneStep_good Hle Heq hgood) hmem'

theorem emit_lines_log (table : String → Option String) (label : String)
    (stat : StatType) :
    ∀ (groups : List ((String × ℚ) × OddsInfo)) (log : List String),
      (emit_lines (resolveLog table) label stat groups log).2
        = log ++ groups.map (fun g => g.1.1) := by
  intro groups
  induction groups with
  | nil => intro log; simp [emit_lines]
  | cons g rest ih =>
    intro log
    obtain ⟨⟨nm, t⟩, info⟩ := g
    cases htn : table nm with
    | none => simp [emit_lines, resolveLog, htn, ih]
    | some pid =>
      cases hmk : mkPropLine pid label stat t info.over_odds info.under_odds with
      | none => simp [emit_lines, resolveLog, htn, hmk, ih]
      | some line => simp [emit_lines, resolveLog, htn, hmk, ih]

theorem parse_market_log (table : String → Option String) (label : String)
    (m : Market) (log : List String) :
    (parse_market (resolveLog table) label m log).2
      = log ++ marketGroupNames m := by
  cases hk : m.key.bind STAT_TYPE_KEY_MAP with
  | none => simp [parse_market, marketGroupNames, hk]
  | some stat => simp [parse_market, marketGroupNames, hk, emit_lines_log]

theorem parse_markets_log (table : String → Option String) (label : String) :
    ∀ (ms : List Market) (log : List String),
      (parse_markets (resolveLog table) label ms log).2
        = log ++ (ms.map marketGroupNames).flatten := by
  intro ms
  induction ms with
  | nil => intro log; simp [parse_markets]
  | cons m rest ih =>
    intro log
    simp [parse_markets, parse_market_log, ih]

theorem parse_bookmakers_log (table : String → Option String) :
    ∀ (bs : List Bookmaker) (log : List String),
      (parse_bookmakers (resolveLog table) bs log).2
        = log ++ (bs.map bookmakerGroupNames).flatten := by
  intro bs
  induction bs with
  | nil => intro log; simp [parse_bookmakers]
  | cons b rest ih =>
    intro log
    simp [parse_bookmakers, bookmakerGroupNames, parse_markets_log, ih]

theorem parse_events_log (table : String → Option String) :
    ∀ (es : List Event) (log : List String),
      (parse_events (resolveLog table) es log).2
        = log ++ (es.map eventGroupNames).flatten := by
  intro es
  induction es with
  | nil => intro log; simp [parse_events]
  | cons e rest ih =>
    intro log
    simp [parse_events, eventGroupNames, parse_bookmakers_log, ih]

theorem oddsApi_parse_payload_log (table : String → Option String)
    (payload : OddsPayload) (log : List String) :
    (oddsApi_parse_payload (resolveLog table) payload log).2
      = log ++ payloadGroupNames payload := by
  rw [oddsApi_parse_payload, payloadGroupNames]
  exact parse_events_log table (payloadEvents payload) log

theorem prizePicks_parse_items_log (table : String → Option String) :
    ∀ (items : List PPItem) (log : List String),
      (prizePicks_parse_items (resolveLog table) items log).2
        = log ++ ppRecordNames items := by
  intro items
  induction items with
  | nil => intro log; simp [prizePicks_parse_items, ppRecordNames]
  | cons item rest ih =>
    intro log
    cases hrec : ppRecord item with
    | none =>
      simp [prizePicks_parse_items, hrec, ih, ppRecordNames, List.filterMap_cons]
    | some r =>
      obtain ⟨nm, stat, t⟩ := r
      cases htn : table nm with
      | none =>
        simp [prizePicks_parse_items, hrec, htn, resolveLog, ih, ppRecordNames,
          List.filterMap_cons]
      | some pid =>
        cases hmk : mkPropLine pid "PrizePicks" stat t none none with
        | none =>
          simp [prizePicks_parse_items, hrec, htn, hmk, resolveLog, ih,
            ppRecordNames, List.filterMap_cons]
        | some line =>
          simp [prizePicks_parse_items, hrec, htn, hmk, resolveLog, ih,
            ppRecordNames, List.filterMap_cons]

theorem emit_lines_none {σ : Type} (resolve : σ → String → Option String × σ)
    (h : ∀ s n, (resolve s n).1 = none) (label : String) (stat : StatType) :
    ∀ (groups : List ((String × ℚ) × OddsInfo)) (st : σ),
      (emit_lines resolve label stat groups st).1 = [] := by
  intro groups
  induction groups with
  | nil => intro st; rfl
  | cons g rest ih =>
    intro st
    obtain ⟨⟨nm, t⟩, info⟩ := g
    simp [emit_lines, h, ih]

theorem parse_market_none {σ : Type} (resolve : σ → String → Option String × σ)
    (h : ∀ s n, (resolve s n).1 = none) (label : String) (m : Market) (st : σ) :
    (parse_market resolve label m st).1 = [] := by
  cases hk : m.key.bind STAT_TYPE_KEY_MAP with
  | none => simp [parse_market, hk]
  | some stat => simp [parse_market, hk, emit_lines_none resolve h]

theorem parse_markets_none {σ : Type} (resolve : σ → String → Option String × σ)
    (h : ∀ s n, (resolve s n).1 = none) (label : String) :
    ∀ (ms : List Market) (st : σ), (parse_markets resolve label ms st).1 = [] := by
  intro ms
  induction ms with
  | nil => intro st; rfl
  | cons m rest ih =>
    intro st
    simp [parse_markets, parse_market_none resolve h, ih]

theorem parse_bookmakers_none {σ : Type}
    (resolve : σ → String → Option String × σ)
    (h : ∀ s n, (resolve s n).1 = none) :
    ∀ (bs : List Bookmaker) (st : σ),
      (parse_bookmakers resolve bs st).1 = [] := by
  intro bs
  induction bs with
  | nil => intro st; rfl
  | cons b rest ih =>
    intro st
    simp [parse_bookmakers, parse_markets_none resolve h, ih]

theorem parse_events_none {σ : Type} (resolve : σ → String → Option String × σ)
    (h : ∀ s n, (resolve s n).1 = none) :
    ∀ (es : List Event) (st : σ), (parse_events resolve es st).1 = [] := by
  intro es
  induction es with
  | nil => intro st; rfl
  | cons e rest ih =>
    intro st
    simp [parse_events, parse_bookmakers_none resolve h, ih]

theorem prizePicks_parse_items_none {σ : Type}
    (resolve : σ → String → Option String × σ)
    (h : ∀ s n, (resolve s n).1 = none) :
    ∀ (items : List PPItem) (st : σ),
      (prizePicks_parse_items resolve items st).1 = [] := by
  intro items
  induction items with
  | nil => intro st; rfl
  | cons item rest ih =>
    intro st
    cases hrec : ppRecord item with
    | none => simp [prizePicks_parse_items, hrec, ih]
    | some r =>
      obtain ⟨nm, stat, t⟩ := r
      simp [prizePicks_parse_items, hrec, h, ih]

/-! ## Claims -/

/-- C1: for every projected value and market line strictly greater than 0,
`compute_edge` returns exactly `(projected - market_line) / market_line`;
for every `market_line ≤ 0` it raises (`Except.error`); and
`rank_props_by_edge` skips such a line rather than aborting the batch:
removing the invalid line from the snapshot leaves the result unchanged. -/
theorem C1_edge_formula_and_skip (p m : ℚ) :
    (0 < m → compute_edge p m = Except.ok ((p - m) / m))
    ∧ (m ≤ 0 →
        compute_edge p m = Except.error "market_line must be > 0 to compute edge.")
    ∧ (∀ (sid gid : String) (proj : String → StatType → Option ℚ)
        (pre post : List PropLine) (bad : PropLine), bad.threshold ≤ 0 →
        rank_props_by_edge ⟨sid, gid, pre ++ bad :: post⟩ proj
          = rank_props_by_edge ⟨sid, gid, pre ++ post⟩ proj) := by
  refine ⟨?_, ?_, ?_⟩
  · intro h
    simp [compute_edge, not_le.mpr h]
  · intro h
    simp [compute_edge, h]
  · intro sid gid proj pre post bad hbad
    have hnone : buildPropEdge proj bad = none := by
      unfold buildPropEdge
      cases proj bad.player_id bad.stat_type with
      | none => rfl
      | some projected => simp [compute_edge, hbad]
    simp [rank_props_by_edge, processLines, List.filterMap_append,
      List.filterMap_cons, hnone]

/-- Witness for C1 at concrete inputs. -/
theorem C1_edge_formula_and_skip_witness :
    compute_edge 28 25 = Except.ok ((28 - 25) / 25)
    ∧ compute_edge 28 (-5 : ℚ)
        = Except.error "market_line must be > 0 to compute edge."
    ∧ rank_props_by_edge
        ⟨"s", "g", [⟨"p", "book", StatType.Points, -1, none, none⟩]⟩
        (fun _ _ => some 1)
      = rank_props_by_edge ⟨"s", "g", []⟩ (fun _ _ => some 1) :=
  ⟨(C1_edge_formula_and_skip 28 25).1 (by norm_num),
   (C1_edge_formula_and_skip 28 (-5)).2.1 (by norm_num),
   (C1_edge_formula_and_skip 0 0).2.2 "s" "g" (fun _ _ => some 1) [] []
     ⟨"p", "book", StatType.Points, -1, none, none⟩ (by norm_num)⟩

/-- C2: the output of `rank_props_by_edge` is sorted by edge non-increasing,
and stably so: for every edge value, the entries carrying that edge appear
in exactly the order in which the corresponding lines appear in the input
snapshot (`processLines` preserves snapshot line order). -/
theorem C2_rank_sorted_and_stable (snap : MarketSnapshot)
    (proj : String → StatType → Option ℚ) :
    List.Pairwise (fun a b => b.edge ≤ a.edge) (rank_props_by_edge snap proj)
    ∧ ∀ e : ℚ,
        (rank_props_by_edge snap proj).filter (fun p => decide (p.edge = e))
          = (processLines proj snap.lines).filter (fun p => decide (p.edge = e)) :=
  ⟨pairwise_sortByEdgeDesc _, fun e => filter_sortByEdgeDesc e _⟩

/-- C4: `fetch_multi_source_snapshot` never fails — it returns a snapshot
whose lines are exactly the concatenation (in provider order) of the lines
of the providers that succeeded, and when every provider fails it returns a
valid snapshot with zero lines. -/
theorem C4_partial_failure_union (snapshot_id game_id : String)
    (results : List (Except String (List PropLine))) :
    (fetch_multi_source_snapshot snapshot_id game_id results).lines
        = (results.filterMap Except.toOption).flatten
    ∧ (fetch_multi_source_snapshot snapshot_id game_id results).snapshot_id
        = snapshot_id
    ∧ (fetch_multi_source_snapshot snapshot_id game_id results).game_id
        = game_id
    ∧ ((∀ r ∈ results, Except.toOption r = none) →
        (fetch_multi_source_snapshot snapshot_id game_id results).lines = []) := by
  have key : ∀ (rs : List (Except String (List PropLine))) (acc : List PropLine),
      rs.foldl (fun acc r => match r with
        | Except.error _ => acc
        | Except.ok ls => acc ++ ls) acc
        = acc ++ (rs.filterMap Except.toOption).flatten := by
    intro rs
    induction rs with
    | nil => intro acc; simp
    | cons r rs ih =>
      intro acc
      cases r with
      | error e => simpa [Except.toOption] using ih acc
      | ok ls => simp [Except.toOption, ih (acc ++ ls)]
  refine ⟨key results [], rfl, rfl, ?_⟩
  intro hall
  have : results.filterMap Except.toOption = [] := by
    rw [List.filterMap_eq_nil_iff]
    exact hall
  rw [fetch_multi_source_snapshot]
  simp only [key results [], this, List.flatten_nil, List.nil_append]

/-- Witness for C4: two successful providers and one failing provider yield
exactly the union of the successes; three failing providers yield zero
lines. -/
theorem C4_partial_failure_union_witness :
    (fetch_multi_source_snapshot "s" "g"
        [Except.ok [⟨"a", "P1", StatType.Points, 10, none, none⟩],
         Except.error "boom",
         Except.ok [⟨"b", "P2", StatType.Threes, 3, none, none⟩]]).lines
      = ([Except.ok [(⟨"a", "P1", StatType.Points, 10, none, none⟩ : PropLine)],
          Except.error "boom",
          Except.ok [⟨"b", "P2", StatType.Threes, 3, none, none⟩]].filterMap
            Except.toOption).flatten
    ∧ (fetch_multi_source_snapshot "s" "g"
        [(Except.error "e1" : Except String (List PropLine)),
         Except.error "e2", Except.error "e3"]).lines = [] :=
  ⟨(C4_partial_failure_union "s" "g" _).1,
   (C4_partial_failure_union "s" "g"
      [Except.error "e1", Except.error "e2", Except.error "e3"]).2.2.2
     (by intro r hr; fin_cases hr <;> rfl)⟩

/-- C3: side classification is a pure function of the edge with exclusive
boundaries — edge strictly above 0.05 yields Over, strictly below -0.05
yields Under, everything in between (boundaries included) yields Pass —
and every entry produced by `rank_props_by_edge` carries exactly that
classification of its own edge. -/
theorem C3_side_classification :
    (∀ e : ℚ, 5/100 < e → classify_side e = Side.Over)
    ∧ (∀ e : ℚ, e < -(5/100) → classify_side e = Side.Under)
    ∧ (∀ e : ℚ, -(5/100) ≤ e → e ≤ 5/100 → classify_side e = Side.Pass)
    ∧ (∀ (snap : MarketSnapshot) (proj : String → StatType → Option ℚ)
        (p : PropEdge), p ∈ rank_props_by_edge snap proj →
        p.recommended_side = classify_side p.edge) := by
  refine ⟨?_, ?_, ?_, ?_⟩
  · intro e h
    simp [classify_side, h]
  · intro e h
    have h' : ¬ (5/100 : ℚ) < e := by linarith
    simp [classify_side, h', h]
  · intro e h1 h2
    have h' : ¬ (5/100 : ℚ) < e := by linarith
    have h'' : ¬ e < -(5/100 : ℚ) := by linarith
    simp [classify_side, h', h'']
  · intro snap proj p hp
    rw [rank_props_by_edge, mem_sortByEdgeDesc, processLines,
      List.mem_filterMap] at hp
    obtain ⟨line, _, hline⟩ := hp
    exact buildPropEdge_recommended_side hline

/-- Witness for C3 at concrete inputs, including a concrete one-line
snapshot whose single ranked entry is classified Over. -/
theorem C3_side_classification_witness :
    classify_side (51/1000) = Side.Over
    ∧ classify_side (-(51/1000)) = Side.Under
    ∧ classify_side (3/100) = Side.Pass
    ∧ classify_side (-(5/100)) = Side.Pass
    ∧ (⟨"lebron", StatType.Points, "book", 25, 28, 3/25,
          Side.Over⟩ : PropEdge).recommended_side
        = classify_side (⟨"lebron", StatType.Points, "book", 25, 28, 3/25,
          Side.Over⟩ : PropEdge).edge :=
  ⟨C3_side_classification.1 (51/1000) (by norm_num),
   C3_side_classification.2.1 (-(51/1000)) (by norm_num),
   C3_side_classification.2.2.1 (3/100) (by norm_num) (by norm_num),
   C3_side_classification.2.2.1 (-(5/100)) (by norm_num) (by norm_num),
   C3_side_classification.2.2.2
     ⟨"s", "g", [⟨"lebron", "book", StatType.Points, 25, none, none⟩]⟩
     (fun _ _ => some 28) _
     (by
       have h25 : ¬ (25 : ℚ) ≤ 0 := by norm_num
       have hcls : classify_side ((28 - 25) / 25) = Side.Over := by
         have : (5/100 : ℚ) < (28 - 25) / 25 := by norm_num
         simp [classify_side, this]
       simp [rank_props_by_edge, processLines, buildPropEdge, compute_edge,
         h25, hcls, sortByEdgeDesc, insertDesc]
       norm_num)⟩

/-- C5: a payload in which one market carries exactly one Over outcome and
one Under outcome for the same player name and threshold normalizes to
exactly one line carrying both odds (over odds from the Over outcome, under
odds from the Under outcome), in either encounter order — never two partial
lines. -/
theorem C5_over_under_grouped {σ : Type}
    (resolve : σ → String → Option String × σ) (st st' : σ)
    (o1 o2 : Outcome) (nm : String) (t p1 p2 : ℚ) (k : String)
    (stat : StatType) (title : Option String) (pid : String)
    (hk : STAT_TYPE_KEY_MAP k = some stat)
    (h1n : playerNameOf o1 = some nm) (h2n : playerNameOf o2 = some nm)
    (h1t : o1.point = some t) (h2t : o2.point = some t)
    (h1p : o1.price = some p1) (h2p : o2.price = some p2)
    (ht : 0 < t)
    (hres : resolve st nm = (some pid, st')) :
    (outcomeNameOf o1 = "over" → outcomeNameOf o2 = "under" →
      (oddsApi_parse_payload resolve
          (OddsPayload.list [⟨[⟨title, [⟨some k, [o1, o2]⟩]⟩]⟩]) st).1
        = [⟨pid, bookmakerLabel ⟨title, [⟨some k, [o1, o2]⟩]⟩, stat, t,
            some p1, some p2⟩])
    ∧ (outcomeNameOf o1 = "under" → outcomeNameOf o2 = "over" →
      (oddsApi_parse_payload resolve
          (OddsPayload.list [⟨[⟨title, [⟨some k, [o1, o2]⟩]⟩]⟩]) st).1
        = [⟨pid, bookmakerLabel ⟨title, [⟨some k, [o1, o2]⟩]⟩, stat, t,
            some p2, some p1⟩]) := by
  have hnle : ¬ t ≤ 0 := not_le.mpr ht
  constructor
  · intro ho1 ho2
    simp [oddsApi_parse_payload, payloadEvents, parse_events, parse_bookmakers,
      parse_markets, parse_market, parse_outcomes, emit_lines, dictUpdate,
      mkPropLine, hk, h1n, h2n, h1t, h2t, h1p, h2p, hres, ho1, ho2, hnle]
  · intro ho1 ho2
    simp [oddsApi_parse_payload, payloadEvents, parse_events, parse_bookmakers,
      parse_markets, parse_market, parse_outcomes, emit_lines, dictUpdate,
      mkPropLine, hk, h1n, h2n, h1t, h2t, h1p, h2p, hres, ho1, ho2, hnle]

/-- Witness for C5: a concrete single-market payload with one Over row at
-110 and one Under row at -105 for the same player and threshold produces
exactly one line with both odds. -/
theorem C5_over_under_grouped_witness :
    (oddsApi_parse_payload (fun (_ : Unit) n => (some n, ()))
        (OddsPayload.list [⟨[⟨some "Book",
          [⟨some "player_points",
            [⟨some "LeBron James", none, some 25, some (-110), some "Over"⟩,
             ⟨some "LeBron James", none, some 25, some (-105), some "Under"⟩]⟩]⟩]⟩])
        ()).1
      = [⟨"LeBron James",
          bookmakerLabel ⟨some "Book",
            [⟨some "player_points",
              [⟨some "LeBron James", none, some 25, some (-110), some "Over"⟩,
               ⟨some "LeBron James", none, some 25, some (-105), some "Under"⟩]⟩]⟩,
          StatType.Points, 25, some (-110), some (-105)⟩] :=
  (C5_over_under_grouped (fun (_ : Unit) n => (some n, ())) () ()
      ⟨some "LeBron James", none, some 25, some (-110), some "Over"⟩
      ⟨some "LeBron James", none, some 25, some (-105), some "Under"⟩
      "LeBron James" 25 (-110) (-105) "player_points" StatType.Points
      (some "Book") "LeBron James"
      (by simp [STAT_TYPE_KEY_MAP])
      (by simp [playerNameOf, orElseTruthy])
      (by simp [playerNameOf, orElseTruthy])
      rfl rfl rfl rfl (by norm_num) rfl).1
    (by decide) (by decide)

/-- C6: within one resolver instance with cutoff 80 (and a scorer with the
spec's 0-100 range, scoring 100 exactly on equal strings): resolving a name
that exactly equals a known alias returns that player's id; resolving a
(nonempty) string with no candidate at or above the cutoff returns a newly
minted id distinct from every existing player id, rather than no match;
and resolving the same novel string a second time returns the same id. -/
theorem C6_resolver_exact_mint_idempotent
    (score : String → String → ℕ) (st : MatcherState) (name pid : String)
    (Hrefl : ∀ s, score s s = 100)
    (Hle : ∀ a b, score a b ≤ 100)
    (Heq : ∀ a b, score a b = 100 → a = b)
    (hcut : st.score_cutoff = 80)
    (hwf : st.choices = st.name_to_player_id.map Prod.fst)
    (hname : name ≠ "") :
    (dictGet name st.name_to_player_id = some pid →
        (match_player_id score st name).1 = some pid)
    ∧ ((∀ c ∈ st.choices, score name c < 80) →
        dictGet name st.players_by_id = none →
        (match_player_id score st name).1 = some name
        ∧ name ∉ st.players_by_id.map Prod.fst
        ∧ (match_player_id score (match_player_id score st name).2 name).1
            = some name) := by
  constructor
  · intro hknown
    have hmem : name ∈ st.choices := by
      rw [hwf]
      exact (dictGet_isSome_iff name st.name_to_player_id).mp (by rw [hknown]; rfl)
    have hne : st.choices ≠ [] := by
      intro h
      rw [h] at hmem
      exact absurd hmem (by simp)
    have hext : extractOne score name st.choices st.score_cutoff
        = some (name, 100) := by
      rw [extractOne, hcut]
      exact extractOneAux_query (fun c => Hle name c)
        (fun c h => (Heq name c h).symm)
        (Hrefl name) (by norm_num) st.choices none trivial hmem
    rw [match_player_id, if_neg hname, if_neg hne, hext]
    exact hknown
  · intro hbelow hnew
    have hnotmem : name ∉ st.choices := by
      intro hmem
      have h := hbelow name hmem
      rw [Hrefl name] at h
      norm_num at h
    have hcp : create_player_from_name st name
        = (⟨name, name, "UNK", []⟩,
           { score_cutoff := st.score_cutoff
             name_to_player_id := dictInsert name name st.name_to_player_id
             players_by_id :=
               dictInsert name ⟨name, name, "UNK", []⟩ st.players_by_id
             choices :=
               (dictInsert name name st.name_to_player_id).map Prod.fst }) := by
      rw [create_player_from_name]
      rw [hnew]
      rfl
    have hfirst : match_player_id score st name
        = (some name,
           { score_cutoff := st.score_cutoff
             name_to_player_id := dictInsert name name st.name_to_player_id
             players_by_id :=
               dictInsert name ⟨name, name, "UNK", []⟩ st.players_by_id
             choices :=
               (dictInsert name name st.name_to_player_id).map Prod.fst }) := by
      by_cases hch : st.choices = []
      · rw [match_player_id, if_neg hname, if_pos hch, hcp]
      · have hext : extractOne score name st.choices st.score_cutoff = none := by
          rw [extractOne, hcut]
          exact extractOneAux_below st.choices none hbelow
        rw [match_player_id, if_neg hname, if_neg hch, hext, hcp]
    have hntpnone : dictGet name st.name_to_player_id = none :=
      (dictGet_eq_none_iff _ _).mpr (by rw [← hwf]; exact hnotmem)
    refine ⟨by rw [hfirst], (dictGet_eq_none_iff _ _).mp hnew, ?_⟩
    rw [hfirst]
    have hkeys1 : (dictInsert name name st.name_to_player_id).map Prod.fst
        = st.name_to_player_id.map Prod.fst ++ [name] :=
      dictInsert_keys_of_none hntpnone name
    have hch1 : (dictInsert name name st.name_to_player_id).map Prod.fst ≠ [] := by
      rw [hkeys1]
      simp
    have hmem1 : name ∈ (dictInsert name name st.name_to_player_id).map Prod.fst := by
      rw [hkeys1]
      simp
    have hext1 : extractOne score name
        ((dictInsert name name st.name_to_player_id).map Prod.fst)
        st.score_cutoff = some (name, 100) := by
      rw [extractOne, hcut]
      exact extractOneAux_query (fun c => Hle name c)
        (fun c h => (Heq name c h).symm)
        (Hrefl name) (by norm_num) _ none trivial hmem1
    rw [match_player_id, if_neg hname, if_neg hch1, hext1]
    exact dictGet_dictInsert_self name name st.name_to_player_id

/-- Witness for C6: roster with player A aliased "Ace", exact-match scorer,
cutoff 80; "Ace" resolves to A, the novel "Zed" mints id "Zed", and a second
resolution of "Zed" returns "Zed" again. -/
theorem C6_resolver_witness :
    (match_player_id (fun a b => if a = b then 100 else 0)
        (FuzzyNameMatcher_init [⟨"A", "Alpha Ace", "LAL", ["Ace"]⟩] 80)
        "Ace").1 = some "A"
    ∧ (match_player_id (fun a b => if a = b then 100 else 0)
        (FuzzyNameMatcher_init [⟨"A", "Alpha Ace", "LAL", ["Ace"]⟩] 80)
        "Zed").1 = some "Zed"
    ∧ (match_player_id (fun a b => if a = b then 100 else 0)
        (match_player_id (fun a b => if a = b then 100 else 0)
          (FuzzyNameMatcher_init [⟨"A", "Alpha Ace", "LAL", ["Ace"]⟩] 80)
          "Zed").2
        "Zed").1 = some "Zed" := by
  have Hrefl : ∀ s : String, (fun a b => if a = b then 100 else 0) s s = 100 := by
    intro s
    simp
  have Hle : ∀ a b : String, (fun a b => if a = b then 100 else 0) a b ≤ 100 := by
    intro a b
    by_cases h : a = b <;> simp [h]
  have Heq : ∀ a b : String,
      (fun a b => if a = b then 100 else 0) a b = 100 → a = b := by
    intro a b h
    by_cases hab : a = b
    · exact hab
    · simp [hab] at h
  have h1 := (C6_resolver_exact_mint_idempotent
    (fun a b => if a = b then 100 else 0)
    (FuzzyNameMatcher_init [⟨"A", "Alpha Ace", "LAL", ["Ace"]⟩] 80)
    "Ace" "A" Hrefl Hle Heq rfl rfl (by decide)).1 (by decide)
  have h2 := (C6_resolver_exact_mint_idempotent
    (fun a b => if a = b then 100 else 0)
    (FuzzyNameMatcher_init [⟨"A", "Alpha Ace", "LAL", ["Ace"]⟩] 80)
    "Zed" "unused" Hrefl Hle Heq rfl rfl (by decide)).2 (by decide) (by decide)
  exact ⟨h1, h2.1, h2.2.2⟩

/-- C7 counterexample: a payload containing one distinct raw player name at
two different thresholds within one market invokes the resolver twice with
that same name — not exactly once per distinct raw name. -/
theorem C7_once_per_name_counterexample :
    (oddsApi_parse_payload (resolveLog (fun n => some n))
        (OddsPayload.list [⟨[⟨some "Book",
          [⟨some "player_points",
            [⟨some "LeBron James", none, some 5, none, some "Over"⟩,
             ⟨some "LeBron James", none, some 6, none, some "Over"⟩]⟩]⟩]⟩])
        []).2 = ["LeBron James", "LeBron James"]
    ∧ (["LeBron James", "LeBron James"] : List String).dedup
        = ["LeBron James"] := by
  constructor
  · rw [oddsApi_parse_payload_log]
    have hov : outcomeNameOf
        ⟨some "LeBron James", none, some 5, none, some "Over"⟩ = "over" := by
      decide
    have hov6 : outcomeNameOf
        ⟨some "LeBron James", none, some 6, none, some "Over"⟩ = "over" := by
      decide
    have hnm : playerNameOf
        ⟨some "LeBron James", none, some 5, none, some "Over"⟩
        = some "LeBron James" := by decide
    have hnm6 : playerNameOf
        ⟨some "LeBron James", none, some 6, none, some "Over"⟩
        = some "LeBron James" := by decide
    have hne : ¬ ((("LeBron James" : String), (5 : ℚ))
        = (("LeBron James" : String), (6 : ℚ))) := by
      intro h
      have := congrArg Prod.snd h
      norm_num at this
    simp [payloadGroupNames, payloadEvents, eventGroupNames,
      bookmakerGroupNames, marketGroupNames, STAT_TYPE_KEY_MAP,
      parse_outcomes, dictUpdate, hov, hov6, hnm, hnm6, hne]
  · decide

/-- C7 amended: during normalization of a single payload the resolver is
invoked once per `(player name, threshold)` group in each market of each
bookmaker of each event (Odds API) and once per guard-passing record
(PrizePicks) — so the same raw name may be resolved more than once — and
any record whose name resolution yields no identity produces no line. -/
theorem C7_amended_resolver_per_group {σ : Type}
    (resolve : σ → String → Option String × σ)
    (table : String → Option String) (payload : OddsPayload)
    (items : List PPItem) (log0 : List String) :
    (oddsApi_parse_payload (resolveLog table) payload log0).2
        = log0 ++ payloadGroupNames payload
    ∧ (prizePicks_parse_items (resolveLog table) items log0).2
        = log0 ++ ppRecordNames items
    ∧ ((∀ s n, (resolve s n).1 = none) → ∀ st : σ,
        (oddsApi_parse_payload resolve payload st).1 = []
        ∧ (prizePicks_parse_items resolve items st).1 = []) := by
  refine ⟨oddsApi_parse_payload_log table payload log0,
    prizePicks_parse_items_log table items log0, ?_⟩
  intro h st
  exact ⟨parse_events_none resolve h (payloadEvents payload) st,
    prizePicks_parse_items_none resolve h items st⟩

/-- Witness for the amended C7 at a concrete payload, item list and
always-failing resolver. -/
theorem C7_amended_resolver_per_group_witness :
    (oddsApi_parse_payload (resolveLog (fun n => some n))
        (OddsPayload.single ⟨[⟨some "Book",
          [⟨some "player_threes",
            [⟨some "Curry", none, some 5, some 110, some "Over"⟩]⟩]⟩]⟩)
        []).2
      = [] ++ payloadGroupNames
          (OddsPayload.single ⟨[⟨some "Book",
            [⟨some "player_threes",
              [⟨some "Curry", none, some 5, some 110, some "Over"⟩]⟩]⟩]⟩)
    ∧ (prizePicks_parse_items (resolveLog (fun n => some n))
        [⟨⟨some "Curry", none, some "points", none, some 25⟩⟩] []).2
      = [] ++ ppRecordNames [⟨⟨some "Curry", none, some "points", none, some 25⟩⟩]
    ∧ (oddsApi_parse_payload (fun (_ : Unit) _ => (none, ()))
        (OddsPayload.single ⟨[⟨some "Book",
          [⟨some "player_threes",
            [⟨some "Curry", none, some 5, some 110, some "Over"⟩]⟩]⟩]⟩)
        ()).1 = []
    ∧ (prizePicks_parse_items (fun (_ : Unit) _ => (none, ()))
        [⟨⟨some "Curry", none, some "points", none, some 25⟩⟩] ()).1 = [] := by
  have h := C7_amended_resolver_per_group (fun (_ : Unit) _ => ((none : Option String), ()))
    (fun n => some n)
    (OddsPayload.single ⟨[⟨some "Book",
      [⟨some "player_threes",
        [⟨some "Curry", none, some 5, some 110, some "Over"⟩]⟩]⟩]⟩)
    [⟨⟨some "Curry", none, some "points", none, some 25⟩⟩] []
  have h3 := h.2.2 (fun s n => rfl) ()
  exact ⟨h.1, h.2.1, h3.1, h3.2⟩

/-- C8: `calculate_implied_probability` returns `100/(o+100)` for positive
odds, `|o|/(|o|+100)` for negative odds, and `none` for absent odds (never a
fabricated 0); `-110 ↦ 11/21 ≈ 0.5238` and `+150 ↦ 2/5 = 0.4`. -/
theorem C8_implied_probability :
    (∀ o : ℚ, 0 < o →
        calculate_implied_probability (some o) = some (100 / (o + 100)))
    ∧ (∀ o : ℚ, o < 0 →
        calculate_implied_probability (some o) = some (|o| / (|o| + 100)))
    ∧ calculate_implied_probability none = none
    ∧ calculate_implied_probability (some (-110)) = some (11/21)
    ∧ calculate_implied_probability (some 150) = some (2/5) := by
  refine ⟨?_, ?_, rfl, ?_, ?_⟩
  · intro o h
    simp [calculate_implied_probability, h]
  · intro o h
    have h' : ¬ (0 : ℚ) < o := by linarith
    simp [calculate_implied_probability, h']
  · norm_num [calculate_implied_probability]
  · norm_num [calculate_implied_probability]

/-- Witness for C8 at concrete inputs. -/
theorem C8_implied_probability_witness :
    calculate_implied_probability (some 150) = some (100 / (150 + 100))
    ∧ calculate_implied_probability (some (-110))
        = some (|(-110 : ℚ)| / (|(-110 : ℚ)| + 100)) :=
  ⟨C8_implied_probability.1 150 (by norm_num),
   C8_implied_probability.2.1 (-110) (by norm_num)⟩

/-- C9: on `[10, 10, 10, 30]` the simple average is exactly 15, the
ascending linear weights for four games are exactly 0.1, 0.2, 0.3, 0.4
(oldest to newest), and the weighted average is exactly 18. -/
theorem C9_projection_baselines :
    compute_simple_average [10, 10, 10, 30] = 15
    ∧ linear_weights 4 = [1/10, 2/10, 3/10, 4/10]
    ∧ compute_weighted_average [10, 10, 10, 30] = 18 := by
  refine ⟨?_, ?_, ?_⟩
  · simp only [compute_simple_average, List.cons_ne_nil, if_false]
    norm_num
  · simp only [linear_weights, List.range_succ, List.range_zero]
    norm_num
  · simp only [compute_weighted_average, linear_weights, List.cons_ne_nil,
      if_false, List.length_cons, List.length_nil, List.range_succ,
      List.range_zero]
    norm_num

/-- C10: for input odds exactly 0, `calculate_implied_probability` takes the
non-positive branch and returns the computed value `0` (`0/(0+100)`), not
`none`. -/
theorem C10_zero_odds_computed :
    calculate_implied_probability (some 0) = some 0 := by
  norm_num [calculate_implied_probability]
